import Mathlib

/-!
Verification of the rate-limiting admission-control core of
`hubspot-integration-server-core` (file
`src/hubspot_integration_server_core/services/tasks.py`).

We shallowly embed the Python code: `_parse_rate_limit` becomes a pure Lean
function on strings (with a faithful model of CPython `int()` over ASCII
input and of `str.split` with a one-character separator), and
`RateLimitedTask.__call__` becomes a state-passing function over an
association-list model of the Redis keys it touches, recording the trace of
store operations it issues.  Machine integers do not overflow here (Python
ints are unbounded), so `Int`/`Nat` are exact models.
-/

namespace HubSpotCore

/-! ## Model of the Python primitives used by `_parse_rate_limit` -/

/-- The six ASCII whitespace characters that CPython `int()` strips from a
string argument (`" \t\n\r\x0b\x0c"`). -/
def isPyWs (c : Char) : Bool :=
  c = ' ' || c = '\t' || c = '\n' || c = '\r' || c = Char.ofNat 11 || c = Char.ofNat 12

/-- Strip leading and trailing whitespace, as CPython `int()` does before
parsing the digits. -/
def pyTrim (l : List Char) : List Char :=
  ((l.dropWhile isPyWs).reverse.dropWhile isPyWs).reverse

/-- Digit scanner for CPython `int()`: a run of decimal digits in which a
single underscore may appear between two digits (`"1_0"` is valid, `"_1"`,
`"1_"`, `"1__0"` are not).  `afterU` records that the previous character was
an underscore, so the next one must be a digit. -/
def pyDigitsGo : Bool → Nat → List Char → Option Nat
  | afterU, acc, [] => if afterU then none else some acc
  | afterU, acc, c :: rest =>
    if c.isDigit then pyDigitsGo false (acc * 10 + (c.toNat - 48)) rest
    else if afterU then none
    else if c = '_' then pyDigitsGo true acc rest
    else none

/-- Parse a non-empty unsigned decimal numeral (CPython `int()` digit part). -/
def pyParseNat : List Char → Option Nat
  | [] => none
  | c :: rest => if c.isDigit then pyDigitsGo false (c.toNat - 48) rest else none

/-- Model of CPython `int(s)` on ASCII strings: strip whitespace, accept an
optional sign, then a non-empty digit run (underscore rules as above). -/
def pyInt (s : List Char) : Option Int :=
  match pyTrim s with
  | [] => none
  | c :: rest =>
    if c = '-' then (pyParseNat rest).map (fun n => -(n : Int))
    else if c = '+' then (pyParseNat rest).map (fun n => (n : Int))
    else (pyParseNat (c :: rest)).map (fun n => (n : Int))

/-- Model of Python `s.split(sep)` for a one-character separator: splits on
every occurrence, keeping empty pieces (`"a//b"` gives `["a","","b"]`,
`""` gives `[""]`). -/
def pySplitOn (sep : Char) : List Char → List (List Char)
  | [] => [[]]
  | c :: rest =>
    let r := pySplitOn sep rest
    if c = sep then [] :: r
    else
      match r with
      | g :: gs => (c :: g) :: gs
      | [] => [[c]]

/-- Python exceptions raised by the admission-control core.  Both the parser
and the missing-argument check raise `ValueError` in the source (the spec
calls them `ConfigError` and `CallerContractError`); `_initialize_rate_limit`
can also raise `NotImplementedError`. -/
inductive PyErr where
  | valueError (msg : String)
  | notImplementedError (msg : String)
deriving DecidableEq, Repr

/-! ## The rate-limit spec parser (`_parse_rate_limit`, tasks.py lines 11-35) -/

/-- Embedding of `_parse_rate_limit`.  The Python `if not rate_limit_string`
falsiness test on a string is emptiness, modelled as `rs.data = []`;
`parts[1].lower()` lowercases ASCII letters. -/
def _parse_rate_limit (rs : String) : Except PyErr (Int × Int) :=
  if rs.data = [] then
    .error (.valueError "Rate limit string cannot be empty.")
  else
    match pySplitOn '/' rs.data with
    | [p0, p1] =>
      match pyInt p0 with
      | none => .error (.valueError "Invalid call limit. Must be an integer.")
      | some limit =>
        let periodChars := p1.map Char.toLower
        if periodChars = ['s'] then .ok (limit, 1)
        else if periodChars = ['m'] then .ok (limit, 60)
        else if periodChars = ['h'] then .ok (limit, 3600)
        else .error (.valueError "Invalid period. Use s, m, or h.")
    | _ => .error (.valueError "Invalid rate limit format. Use calls/period.")

example : _parse_rate_limit "10/s" = .ok (10, 1) := rfl
example : _parse_rate_limit "600/m" = .ok (600, 60) := rfl
example : _parse_rate_limit "2/H" = .ok (2, 3600) := rfl
example : _parse_rate_limit "-3/s" = .ok (-3, 1) := rfl
example : (_parse_rate_limit "").isOk = false := by decide
example : (_parse_rate_limit "10").isOk = false := by decide
example : (_parse_rate_limit "abc/s").isOk = false := by decide
example : (_parse_rate_limit "10/x").isOk = false := by decide

/-! ## Model of the Redis counter store

The wrapper issues `get`, `decr`, `setex` and `incr` on string keys whose
values are integer counters.  `decode_responses=True` makes `get` return a
string, but the code only compares it with `None`, so `Option Int` is a
faithful observation.  A key optionally carries a TTL; no claim involves the
passage of time, so TTLs are recorded but never expire in the model. -/

structure Entry where
  value : Int
  ttlSeconds : Option Int
deriving DecidableEq, Repr

/-- The store: an association list from keys to entries (first match wins). -/
abbrev Store := List (String × Entry)

def storeFind : Store → String → Option Entry
  | [], _ => none
  | (k0, e) :: rest, k => if k0 = k then some e else storeFind rest k

def storeSet : Store → String → Entry → Store
  | [], k, e => [(k, e)]
  | (k0, e0) :: rest, k, e =>
    if k0 = k then (k, e) :: rest else (k0, e0) :: storeSet rest k e

/-- Redis `GET key`: the counter value, or `none` when the key is absent. -/
def redisGet (s : Store) (k : String) : Option Int :=
  (storeFind s k).map Entry.value

/-- Redis `DECR key`: decrement and return the new value; a missing key is
created as if it held 0 (so the result is -1) with no TTL. -/
def redisDecr (s : Store) (k : String) : Int × Store :=
  match storeFind s k with
  | none => (-1, storeSet s k ⟨-1, none⟩)
  | some e => (e.value - 1, storeSet s k ⟨e.value - 1, e.ttlSeconds⟩)

/-- Redis `INCR key`: increment and return the new value; a missing key is
created as if it held 0 with no TTL. -/
def redisIncr (s : Store) (k : String) : Int × Store :=
  match storeFind s k with
  | none => (1, storeSet s k ⟨1, none⟩)
  | some e => (e.value + 1, storeSet s k ⟨e.value + 1, e.ttlSeconds⟩)

/-- Redis `SETEX key ttl value`: set the value together with a TTL. -/
def redisSetex (s : Store) (k : String) (ttl v : Int) : Store :=
  storeSet s k ⟨v, some ttl⟩

/-! ## The admission protocol (`RateLimitedTask.__call__`, tasks.py lines 78-93)

The body of `__call__` after the argument check: a pipelined `get`+`decr`,
then either the key-absent initialisation (`setex`), the in-window admit, or
the compensating `incr` followed by `self.retry(countdown=period)`. -/

inductive AdmitResult where
  | admitted
  | denied (retryAfterSeconds : Int)
deriving DecidableEq, Repr

/-- The admission decision and resulting store for one call on `bucketKey`
with parsed limit `calls` and window `period` (seconds) — the exact
get/decr/setex/incr sequence of `__call__`. -/
def admitCheck (bucketKey : String) (calls period : Int) (s : Store) :
    AdmitResult × Store :=
  let tokensBefore := redisGet s bucketKey
  let (tokensAfter, s1) := redisDecr s bucketKey
  match tokensBefore with
  | none =>
    -- First call for this key: set the token bucket with a TTL.
    (.admitted, redisSetex s1 bucketKey period (calls - 1))
  | some _ =>
    if tokensAfter < 0 then
      -- Rate limit exceeded: increment back and retry after `period`.
      (.denied period, (redisIncr s1 bucketKey).2)
    else
      (.admitted, s1)

/-- `n` sequential admission checks on the same key, threading the store;
returns the list of outcomes and the final store. -/
def admitSeq (k : String) (calls period : Int) (s : Store) :
    Nat → List AdmitResult × Store
  | 0 => ([], s)
  | n + 1 =>
    let (r, s1) := admitCheck k calls period s
    let (rs, s2) := admitSeq k calls period s1 n
    (r :: rs, s2)

/-- Number of `Admitted` results before the first `Denied`. -/
def countAdmitted (rs : List AdmitResult) : Nat :=
  (rs.takeWhile (fun r => decide (r = AdmitResult.admitted))).length

example :
    (admitSeq "hubspot:task:client" 3 1 [] 4).1 =
      [.admitted, .admitted, .admitted, .denied 1] := rfl

/-! ## The task wrapper (`RateLimitedTask.__call__` with lazy initialisation) -/

/-- The class attributes a decorated task carries (`create_api_task_decorator`
sets both; `none` models a Python `None` attribute).  `name` is the Celery
task name used in the bucket key.  Source field name: `base_key_prefix`. -/
structure TaskConfig where
  baseKeyPfx : Option String
  name : String
  rate_limit : Option String
deriving DecidableEq, Repr

/-- Embedding of `_initialize_rate_limit` (tasks.py lines 53-62): validate
`base_key_prefix` and `rate_limit`, then parse.  It returns the validated
key namespace together with `(_rate_limit_calls, _rate_limit_period)`; the
`_rate_limit_initialized` caching flag only avoids re-parsing and does not
change the produced values, so it is dropped. -/
def _initialize_rate_limit (t : TaskConfig) :
    Except PyErr (String × Int × Int) :=
  match t.baseKeyPfx with
  | none =>
    .error (.notImplementedError
      "Subclasses of RateLimitedTask must define a base key.")
  | some ns =>
    match t.rate_limit with
    | none => .error (.valueError "Task rate_limit attribute cannot be None.")
    | some rs => (_parse_rate_limit rs).map (fun cp => (ns, cp))

/-- A Python value passed as a task argument; the wrapper only ever applies
truthiness (via `if not args` on the tuple) and `str()` (in the f-string
building the bucket key) to it. -/
inductive PyValue where
  | none
  | int (n : Int)
  | str (s : String)
deriving DecidableEq, Repr

/-- Python truthiness of a `PyValue`. -/
def pyTruthy : PyValue → Bool
  | .none => false
  | .int n => n ≠ 0
  | .str s => s ≠ ""

/-- Python `str()` of a `PyValue`, as interpolated by the f-string. -/
def pyValueStr : PyValue → String
  | .none => "None"
  | .int n => toString n
  | .str s => s

/-- One operation issued to the counter store, for tracing. -/
inductive StoreOp where
  | get (k : String)
  | decr (k : String)
  | setex (k : String) (ttl v : Int)
  | incr (k : String)
deriving DecidableEq, Repr

/-- How one invocation of `__call__` ends: the wrapped body runs via
`super().__call__(*args)`, or `self.retry(countdown=...)` raises `Retry`,
or an exception is raised before the body. -/
inductive CallOutcome where
  | bodyCall (args : List PyValue)
  | retry (countdown : Int)
  | raised (e : PyErr)
deriving DecidableEq, Repr

structure CallResult where
  outcome : CallOutcome
  store : Store
  ops : List StoreOp
deriving DecidableEq, Repr

/-- Embedding of `RateLimitedTask.__call__` (tasks.py lines 64-93):
initialise lazily, check for a positional argument, build the bucket key
from the f-string `"{base_key_prefix}:{self.name}:{client_id}"`, then run
the admission sequence, recording every store operation in order.  `kwargs`
never influence control flow and are omitted. -/
def rateLimitedCall (t : TaskConfig) (args : List PyValue) (s : Store) :
    CallResult :=
  match _initialize_rate_limit t with
  | .error e => ⟨.raised e, s, []⟩
  | .ok (ns, calls, period) =>
    match args with
    | [] =>
      ⟨.raised (.valueError
          "RateLimitedTask requires a client_id as the first argument."),
        s, []⟩
    | clientId :: _ =>
      let bucketKey := ns ++ ":" ++ t.name ++ ":" ++ pyValueStr clientId
      let tokensBefore := redisGet s bucketKey
      let (tokensAfter, s1) := redisDecr s bucketKey
      let ops0 := [StoreOp.get bucketKey, StoreOp.decr bucketKey]
      match tokensBefore with
      | none =>
        let s2 := redisSetex s1 bucketKey period (calls - 1)
        ⟨.bodyCall args, s2, ops0 ++ [.setex bucketKey period (calls - 1)]⟩
      | some _ =>
        if tokensAfter < 0 then
          ⟨.retry period, (redisIncr s1 bucketKey).2,
            ops0 ++ [.incr bucketKey]⟩
        else
          ⟨.bodyCall args, s1, ops0⟩

example :
    (rateLimitedCall ⟨some "hubspot", "tasks.sync", some "3/s"⟩
        [.str "client-7"] []).outcome = .bodyCall [.str "client-7"] := rfl

example :
    (rateLimitedCall ⟨some "hubspot", "tasks.sync", some "3/s"⟩ [] []).ops
      = [] := rfl

/-! ## Lemmas about the store and the admission protocol -/

theorem storeFind_storeSet_self (s : Store) (k : String) (e : Entry) :
    storeFind (storeSet s k e) k = some e := by
  induction s with
  | nil => simp [storeSet, storeFind]
  | cons kv rest ih =>
    obtain ⟨k0, e0⟩ := kv
    by_cases h : k0 = k <;> simp [storeSet, storeFind, h, ih]

theorem storeSet_storeSet_self (s : Store) (k : String) (e1 e2 : Entry) :
    storeSet (storeSet s k e1) k e2 = storeSet s k e2 := by
  induction s with
  | nil => simp [storeSet]
  | cons kv rest ih =>
    obtain ⟨k0, e0⟩ := kv
    by_cases h : k0 = k <;> simp [storeSet, h, ih]

theorem admitCheck_absent (k : String) (calls period : Int) (s : Store)
    (h : redisGet s k = none) :
    admitCheck k calls period s =
      (.admitted, storeSet s k ⟨calls - 1, some period⟩) := by
  have hf : storeFind s k = none := by
    simpa [redisGet] using h
  simp [admitCheck, redisGet, redisDecr, redisSetex, hf, storeSet_storeSet_self]

theorem admitCheck_present_pos (k : String) (calls period : Int) (s : Store)
    (v : Int) (t : Option Int) (hf : storeFind s k = some ⟨v, t⟩)
    (hv : 1 ≤ v) :
    admitCheck k calls period s = (.admitted, storeSet s k ⟨v - 1, t⟩) := by
  have hlt : ¬ v - 1 < 0 := by omega
  simp [admitCheck, redisGet, redisDecr, hf, hlt]

theorem admitCheck_present_nonpos (k : String) (calls period : Int)
    (s : Store) (v : Int) (t : Option Int) (hf : storeFind s k = some ⟨v, t⟩)
    (hv : v ≤ 0) :
    admitCheck k calls period s = (.denied period, storeSet s k ⟨v, t⟩) := by
  have hlt : v - 1 < 0 := by omega
  have hstep : v - 1 + 1 = v := by omega
  simp [admitCheck, redisGet, redisDecr, redisIncr, hf, hlt,
    storeFind_storeSet_self, storeSet_storeSet_self, hstep]

theorem countAdmitted_cons_admitted (rs : List AdmitResult) :
    countAdmitted (.admitted :: rs) = countAdmitted rs + 1 := by
  simp [countAdmitted, List.takeWhile]

theorem countAdmitted_cons_denied (p : Int) (rs : List AdmitResult) :
    countAdmitted (.denied p :: rs) = 0 := by
  simp [countAdmitted, List.takeWhile]

theorem admitSeq_succ (k : String) (calls period : Int) (s : Store) (n : Nat) :
    admitSeq k calls period s (n + 1) =
      ((admitCheck k calls period s).1 ::
          (admitSeq k calls period (admitCheck k calls period s).2 n).1,
        (admitSeq k calls period (admitCheck k calls period s).2 n).2) := by
  simp [admitSeq]

/-- From a store in which the key holds `v ≥ 0` tokens, a long enough run of
sequential admission checks admits exactly `v` calls before the first
denial. -/
theorem countAdmitted_from_tokens (k : String) (calls period : Int) :
    ∀ (n : Nat) (v : Int) (t : Option Int) (s : Store),
      storeFind s k = some ⟨v, t⟩ → 0 ≤ v → v.toNat < n →
      countAdmitted (admitSeq k calls period s n).1 = v.toNat := by
  intro n
  induction n with
  | zero => intro v t s _ _ hlt; omega
  | succ m ih =>
    intro v t s hf hv hlt
    by_cases hpos : 1 ≤ v
    · rw [admitSeq_succ,
        admitCheck_present_pos k calls period s v t hf hpos]
      rw [countAdmitted_cons_admitted]
      have hrec := ih (v - 1) t (storeSet s k ⟨v - 1, t⟩)
        (storeFind_storeSet_self s k ⟨v - 1, t⟩) (by omega) (by omega)
      rw [hrec]
      omega
    · have hz : v = 0 := by omega
      subst hz
      rw [admitSeq_succ,
        admitCheck_present_nonpos k calls period s 0 t hf le_rfl]
      rw [countAdmitted_cons_denied]
      simp

/-! ## Claims about the admission protocol -/

/-- C1: for any sequence of admission checks on a fresh (absent) key with no
concurrency and a positive parsed limit, the number of `Admitted` results
before the first `Denied` equals exactly the limit; in particular with spec
`"3/s"` and an empty store, four sequential calls on one key yield
`Admitted, Admitted, Admitted, Denied (retry_after = 1)`. -/
theorem C1_admitted_count_eq_limit :
    (∀ (k : String) (calls period : Int) (s : Store) (n : Nat),
       redisGet s k = none → 1 ≤ calls → calls.toNat < n →
       countAdmitted (admitSeq k calls period s n).1 = calls.toNat)
    ∧ _parse_rate_limit "3/s" = .ok (3, 1)
    ∧ (admitSeq "hubspot:tasks.sync:client" 3 1 [] 4).1 =
        [.admitted, .admitted, .admitted, .denied 1] := by
  refine ⟨?_, rfl, rfl⟩
  intro k calls period s n hfresh hcalls hlt
  match n with
  | 0 => omega
  | m + 1 =>
    rw [admitSeq_succ, admitCheck_absent k calls period s hfresh]
    rw [countAdmitted_cons_admitted]
    have hrec := countAdmitted_from_tokens k calls period m (calls - 1)
      (some period) (storeSet s k ⟨calls - 1, some period⟩)
      (storeFind_storeSet_self s k ⟨calls - 1, some period⟩)
      (by omega) (by omega)
    rw [hrec]
    omega

/-- Witness for C1 at concrete inputs: key absent in the empty store, limit
2, window 60 seconds, 5 calls. -/
theorem C1_witness :
    countAdmitted (admitSeq "k" 2 60 [] 5).1 = (2 : Int).toNat :=
  C1_admitted_count_eq_limit.1 "k" 2 60 [] 5 rfl (by decide) (by decide)

/-- C5: an admission check on a key that did not exist before the decrement
initialises the key to `limit - 1` with TTL `period_seconds` and admits. -/
theorem C5_fresh_key_initialised (k : String) (calls period : Int)
    (s : Store) (h : redisGet s k = none) :
    (admitCheck k calls period s).1 = .admitted ∧
      storeFind (admitCheck k calls period s).2 k =
        some ⟨calls - 1, some period⟩ := by
  rw [admitCheck_absent k calls period s h]
  exact ⟨rfl, storeFind_storeSet_self s k ⟨calls - 1, some period⟩⟩

/-- Witness for C5: limit 3, window 1 second, empty store. -/
theorem C5_witness :
    (admitCheck "k" 3 1 []).1 = .admitted ∧
      storeFind (admitCheck "k" 3 1 []).2 "k" = some ⟨2, some 1⟩ :=
  C5_fresh_key_initialised "k" 3 1 [] rfl

/-- C6: on an existing key, a decremented value of exactly 0 is admitted;
the check denies exactly when the decremented value is strictly negative. -/
theorem C6_zero_is_admitted (k : String) (calls period : Int) (s : Store)
    (v : Int) (h : redisGet s k = some v) :
    (v - 1 = 0 → (admitCheck k calls period s).1 = .admitted) ∧
      ((∃ r, (admitCheck k calls period s).1 = .denied r) ↔ v - 1 < 0) := by
  have hf : ∃ t, storeFind s k = some ⟨v, t⟩ := by
    rcases he : storeFind s k with _ | ⟨ev, et⟩
    · simp [redisGet, he] at h
    · have hv : ev = v := by simpa [redisGet, he] using h
      subst hv
      exact ⟨et, rfl⟩
  obtain ⟨t, hf⟩ := hf
  constructor
  · intro hz
    rw [admitCheck_present_pos k calls period s v t hf (by omega)]
  · constructor
    · rintro ⟨r, hr⟩
      by_contra hge
      rw [admitCheck_present_pos k calls period s v t hf (by omega)] at hr
      exact AdmitResult.noConfusion hr
    · intro hneg
      rw [admitCheck_present_nonpos k calls period s v t hf (by omega)]
      exact ⟨period, rfl⟩

/-- Witness for C6: key holding one remaining token, so the decrement lands
exactly on 0 and the call is admitted. -/
theorem C6_witness :
    ((1 : Int) - 1 = 0 →
        (admitCheck "k" 3 1 [("k", ⟨1, some 1⟩)]).1 = .admitted) ∧
      ((∃ r, (admitCheck "k" 3 1 [("k", ⟨1, some 1⟩)]).1 = .denied r) ↔
        (1 : Int) - 1 < 0) :=
  C6_zero_is_admitted "k" 3 1 [("k", ⟨1, some 1⟩)] 1 rfl

/-- C7: a denied admission check leaves the stored counter value unchanged
(the decrement is compensated by the increment), and the denial carries
`retry_after_seconds = period_seconds`. -/
theorem C7_denied_preserves_counter (k : String) (calls period : Int)
    (s : Store) (r : Int) (h : (admitCheck k calls period s).1 = .denied r) :
    redisGet (admitCheck k calls period s).2 k = redisGet s k ∧
      r = period := by
  rcases he : storeFind s k with _ | ⟨ev, et⟩
  · have : redisGet s k = none := by simp [redisGet, he]
    rw [admitCheck_absent k calls period s this] at h
    exact absurd h (by simp)
  · by_cases hv : 1 ≤ ev
    · rw [admitCheck_present_pos k calls period s ev et he hv] at h
      exact absurd h (by simp)
    · have hle : ev ≤ 0 := by omega
      have heq := admitCheck_present_nonpos k calls period s ev et he hle
      rw [heq] at h ⊢
      refine ⟨?_, by simpa using h.symm⟩
      simp [redisGet, storeFind_storeSet_self, he]

/-- Witness for C7: a key with 0 tokens left, so the call is denied. -/
theorem C7_witness :
    redisGet (admitCheck "k" 3 60 [("k", ⟨0, some 60⟩)]).2 "k" =
        redisGet [("k", ⟨0, some 60⟩)] "k" ∧
      (60 : Int) = 60 :=
  C7_denied_preserves_counter "k" 3 60 [("k", ⟨0, some 60⟩)] 60 rfl

/-- C9: an admission check on an absent key admits unconditionally, before
any comparison with the limit — even a zero or negative limit admits the
first call of a window. -/
theorem C9_fresh_key_always_admits (k : String) (calls period : Int)
    (s : Store) (h : redisGet s k = none) :
    (admitCheck k calls period s).1 = .admitted := by
  rw [admitCheck_absent k calls period s h]

/-- Witness for C9 with a negative limit on the empty store. -/
theorem C9_witness : (admitCheck "k" (-5) 1 []).1 = .admitted :=
  C9_fresh_key_always_admits "k" (-5) 1 [] rfl

/-! ## Decimal numerals and the parser claims

`decimalString n` is the usual decimal numeral of `n`, built from
`Nat.digits`; it is how the spec's `"N/s"` is pronounced for a concrete
positive integer `N`. -/

def decCharsAux : Nat → Nat → List Char
  | 0, _ => []
  | fuel + 1, n =>
    if n = 0 then [] else decCharsAux fuel (n / 10) ++ [Nat.digitChar (n % 10)]

/-- The decimal digit characters of `n`, most significant first (structural
recursion on a fuel bound so that it evaluates by kernel reduction). -/
def decChars (n : Nat) : List Char := decCharsAux n n

def decimalString (n : Nat) : String := String.mk (decChars n)

example : decimalString 307 = "307" := by decide

theorem decCharsAux_eq_digits :
    ∀ (fuel n : Nat), n ≤ fuel →
      decCharsAux fuel n = ((Nat.digits 10 n).reverse).map Nat.digitChar := by
  intro fuel
  induction fuel with
  | zero =>
    intro n hn
    have : n = 0 := by omega
    subst this
    simp [decCharsAux]
  | succ f ih =>
    intro n hn
    by_cases h0 : n = 0
    · subst h0
      simp [decCharsAux]
    · have hdiv : n / 10 ≤ f := by
        have : n / 10 < n := Nat.div_lt_self (by omega) (by norm_num)
        omega
      have hrec := ih (n / 10) hdiv
      rw [Nat.digits_def' (b := 10) (by norm_num) (by omega)]
      simp only [decCharsAux, if_neg h0, hrec, List.reverse_cons,
        List.map_append, List.map_cons, List.map_nil]

theorem decChars_eq_digits (n : Nat) :
    decChars n = ((Nat.digits 10 n).reverse).map Nat.digitChar :=
  decCharsAux_eq_digits n n le_rfl

theorem digitChar_props (d : Nat) (h : d < 10) :
    (Nat.digitChar d).isDigit = true ∧ (Nat.digitChar d).toNat - 48 = d ∧
      isPyWs (Nat.digitChar d) = false ∧ Nat.digitChar d ≠ '-' ∧
      Nat.digitChar d ≠ '+' ∧ Nat.digitChar d ≠ '/' := by
  interval_cases d <;> exact ⟨rfl, rfl, rfl, by decide, by decide, by decide⟩

theorem decChars_mem (n : Nat) (c : Char) (hc : c ∈ decChars n) :
    ∃ d, d < 10 ∧ c = Nat.digitChar d := by
  rw [decChars_eq_digits] at hc
  simp only [List.mem_map, List.mem_reverse] at hc
  obtain ⟨d, hd, rfl⟩ := hc
  exact ⟨d, Nat.digits_lt_base (by norm_num) hd, rfl⟩

theorem dropWhile_eq_self_of (p : Char → Bool) (l : List Char)
    (h : ∀ c ∈ l, p c = false) : l.dropWhile p = l := by
  cases l with
  | nil => rfl
  | cons c rest => simp [List.dropWhile_cons, h c (by simp)]

theorem pyTrim_eq_self (l : List Char) (h : ∀ c ∈ l, isPyWs c = false) :
    pyTrim l = l := by
  unfold pyTrim
  rw [dropWhile_eq_self_of _ _ h]
  rw [dropWhile_eq_self_of _ _ (fun c hc => h c (List.mem_reverse.mp hc))]
  exact List.reverse_reverse l

theorem pyDigitsGo_digits (ds : List Nat) (hds : ∀ d ∈ ds, d < 10) :
    ∀ acc : Nat,
      pyDigitsGo false acc (ds.map Nat.digitChar) =
        some (ds.foldl (fun a d => a * 10 + d) acc) := by
  induction ds with
  | nil => intro acc; rfl
  | cons d rest ih =>
    intro acc
    have hd := digitChar_props d (hds d (by simp))
    simp only [List.map_cons, pyDigitsGo, hd.1, if_true, hd.2.1,
      List.foldl_cons]
    exact ih (fun x hx => hds x (by simp [hx])) (acc * 10 + d)

theorem pyParseNat_decChars (n : Nat) (hn : 0 < n) :
    pyParseNat (decChars n) = some n := by
  have hne : Nat.digits 10 n ≠ [] := Nat.digits_ne_nil_iff_ne_zero.mpr (by omega)
  rcases hds : (Nat.digits 10 n).reverse with _ | ⟨d0, drest⟩
  · exact absurd (by simpa using hds) hne
  have hmem : ∀ d ∈ d0 :: drest, d < 10 := by
    intro d hd
    rw [← hds, List.mem_reverse] at hd
    exact Nat.digits_lt_base (by norm_num) hd
  have hd0 := digitChar_props d0 (hmem d0 (by simp))
  have hfold :
      (d0 :: drest).foldl (fun a d => a * 10 + d) 0 = n := by
    have h1 : (d0 :: drest).foldl (fun a d => a * 10 + d) 0 =
        (Nat.digits 10 n).foldr (fun d a => a * 10 + d) 0 := by
      rw [← hds, List.foldl_reverse]
    have h2 : ∀ l : List Nat,
        l.foldr (fun d a => a * 10 + d) 0 = Nat.ofDigits 10 l := by
      intro l
      induction l with
      | nil => simp [Nat.ofDigits]
      | cons x xs ihx =>
        rw [List.foldr_cons, ihx, Nat.ofDigits_cons]
        omega
    rw [h1, h2, Nat.ofDigits_digits]
  rw [decChars_eq_digits, hds]
  simp only [List.map_cons, pyParseNat, hd0.1, if_true, hd0.2.1]
  have := pyDigitsGo_digits drest (fun x hx => hmem x (by simp [hx])) d0
  rw [this]
  simp only [List.foldl_cons, Nat.zero_mul, Nat.zero_add] at hfold
  rw [hfold]

theorem pyInt_decChars (n : Nat) (hn : 0 < n) :
    pyInt (decChars n) = some (n : Int) := by
  have htrim : pyTrim (decChars n) = decChars n := by
    refine pyTrim_eq_self _ (fun c hc => ?_)
    obtain ⟨d, hd, rfl⟩ := decChars_mem n c hc
    exact (digitChar_props d hd).2.2.1
  rcases hds : decChars n with _ | ⟨c0, crest⟩
  · have : pyParseNat (decChars n) = some n := pyParseNat_decChars n hn
    rw [hds] at this
    exact absurd this (by simp [pyParseNat])
  have hc0 : ∃ d, d < 10 ∧ c0 = Nat.digitChar d :=
    decChars_mem n c0 (by rw [hds]; simp)
  obtain ⟨d, hd, rfl⟩ := hc0
  have hprops := digitChar_props d hd
  unfold pyInt
  rw [← hds, htrim, hds]
  simp only [hprops.2.2.2.1, hprops.2.2.2.2.1, if_false]
  rw [← hds, pyParseNat_decChars n hn]
  rfl

theorem pyInt_neg_decChars (n : Nat) (hn : 0 < n) :
    pyInt ('-' :: decChars n) = some (-(n : Int)) := by
  have htrim : pyTrim ('-' :: decChars n) = '-' :: decChars n := by
    refine pyTrim_eq_self _ (fun c hc => ?_)
    rcases hc with _ | hc
    · rfl
    · obtain ⟨d, hd, rfl⟩ := decChars_mem n c (by assumption)
      exact (digitChar_props d hd).2.2.1
  unfold pyInt
  rw [htrim]
  simp only [if_pos rfl]
  rw [pyParseNat_decChars n hn]
  rfl

theorem pySplitOn_ne_nil (sep : Char) (l : List Char) :
    pySplitOn sep l ≠ [] := by
  cases l with
  | nil => simp [pySplitOn]
  | cons c rest =>
    by_cases h : c = sep
    · simp [pySplitOn, h]
    · simp only [pySplitOn, if_neg h]
      rcases pySplitOn sep rest with _ | ⟨g, gs⟩ <;> simp

theorem pySplitOn_sepfree_append (sep : Char) (l1 l2 : List Char)
    (h : ∀ c ∈ l1, c ≠ sep) :
    pySplitOn sep (l1 ++ sep :: l2) = l1 :: pySplitOn sep l2 := by
  induction l1 with
  | nil => simp [pySplitOn]
  | cons c rest ih =>
    have hc : c ≠ sep := h c (by simp)
    have hrest := ih (fun x hx => h x (by simp [hx]))
    simp only [List.cons_append, pySplitOn, if_neg hc]
    rw [List.append_eq, hrest]

theorem decChars_ne_slash (n : Nat) : ∀ c ∈ decChars n, c ≠ '/' := by
  intro c hc
  obtain ⟨d, hd, rfl⟩ := decChars_mem n c hc
  exact (digitChar_props d hd).2.2.2.2.2

/-- Evaluation of the parser on a decimal numeral, a slash and one unit
character: the numerator parses to `n` and only the unit branch remains. -/
theorem parse_decimal_unit (n : Nat) (hn : 0 < n) (u : Char)
    (hu : u ≠ '/') :
    _parse_rate_limit (decimalString n ++ String.mk ['/', u]) =
      (if u.toLower = 's' then .ok ((n : Int), 1)
       else if u.toLower = 'm' then .ok ((n : Int), 60)
       else if u.toLower = 'h' then .ok ((n : Int), 3600)
       else .error (.valueError "Invalid period. Use s, m, or h.")) := by
  have hdata : (decimalString n ++ String.mk ['/', u]).data =
      decChars n ++ '/' :: [u] := by
    simp [decimalString, String.data_append]
  have hsplit : pySplitOn '/' (decChars n ++ '/' :: [u]) =
      decChars n :: pySplitOn '/' [u] := by
    exact pySplitOn_sepfree_append '/' (decChars n) [u] (decChars_ne_slash n)
  have hne : decChars n ++ '/' :: [u] ≠ [] := by simp
  have hsplit2 : pySplitOn '/' [u] = [[u]] := by
    simp [pySplitOn, hu]
  unfold _parse_rate_limit
  rw [hdata]
  rw [if_neg hne, hsplit, hsplit2]
  simp only [pyInt_decChars n hn, List.map_cons, List.map_nil]
  simp only [List.cons.injEq, and_true]

/-- C2: for every positive integer N the parser maps `"N/s"` to `(N, 1)`,
`"N/m"` to `(N, 60)` and `"N/h"` to `(N, 3600)`, matching the unit letter
case-insensitively. -/
theorem C2_parser_maps_units (n : Nat) (hn : 0 < n) :
    (_parse_rate_limit (decimalString n ++ "/s") = .ok ((n : Int), 1) ∧
      _parse_rate_limit (decimalString n ++ "/S") = .ok ((n : Int), 1)) ∧
    (_parse_rate_limit (decimalString n ++ "/m") = .ok ((n : Int), 60) ∧
      _parse_rate_limit (decimalString n ++ "/M") = .ok ((n : Int), 60)) ∧
    (_parse_rate_limit (decimalString n ++ "/h") = .ok ((n : Int), 3600) ∧
      _parse_rate_limit (decimalString n ++ "/H") = .ok ((n : Int), 3600)) := by
  refine ⟨⟨?_, ?_⟩, ⟨?_, ?_⟩, ⟨?_, ?_⟩⟩ <;>
    rw [parse_decimal_unit n hn _ (by decide)] <;> rfl

/-- Witness for C2 at N = 12. -/
theorem C2_witness :
    (_parse_rate_limit (decimalString 12 ++ "/s") = .ok ((12 : Int), 1) ∧
      _parse_rate_limit (decimalString 12 ++ "/S") = .ok ((12 : Int), 1)) ∧
    (_parse_rate_limit (decimalString 12 ++ "/m") = .ok ((12 : Int), 60) ∧
      _parse_rate_limit (decimalString 12 ++ "/M") = .ok ((12 : Int), 60)) ∧
    (_parse_rate_limit (decimalString 12 ++ "/h") = .ok ((12 : Int), 3600) ∧
      _parse_rate_limit (decimalString 12 ++ "/H") = .ok ((12 : Int), 3600)) :=
  C2_parser_maps_units 12 (by decide)

/-- C3: the parser fails with a `ConfigError` (a `ValueError` in the code)
for every input that is empty or missing, splits into other than exactly two
parts on the separator, has a non-integer numerator, or has a unit outside
s, m, h case-insensitively. -/
theorem C3_parser_rejects_malformed :
    (∀ rs : String,
      (rs.data = [] ∨ (pySplitOn '/' rs.data).length ≠ 2 ∨
        (∃ p0 p1, pySplitOn '/' rs.data = [p0, p1] ∧ pyInt p0 = none) ∨
        (∃ p0 p1, pySplitOn '/' rs.data = [p0, p1] ∧
          p1.map Char.toLower ≠ ['s'] ∧ p1.map Char.toLower ≠ ['m'] ∧
          p1.map Char.toLower ≠ ['h'])) →
      ∃ msg, _parse_rate_limit rs = .error (.valueError msg)) ∧
    (∀ t : TaskConfig, t.rate_limit = none → t.baseKeyPfx ≠ none →
      ∃ msg, _initialize_rate_limit t = .error (.valueError msg)) := by
  constructor
  · intro rs h
    by_cases hd : rs.data = []
    · exact ⟨"Rate limit string cannot be empty.", by simp [_parse_rate_limit, hd]⟩
    rcases h with h | h | ⟨p0, p1, hsp, hint⟩ | ⟨p0, p1, hsp, hu1, hu2, hu3⟩
    · exact absurd h hd
    · rcases hsp : pySplitOn '/' rs.data with _ | ⟨a, _ | ⟨b, _ | ⟨c, rest⟩⟩⟩
      · exact absurd hsp (pySplitOn_ne_nil '/' rs.data)
      · exact ⟨"Invalid rate limit format. Use calls/period.",
          by simp [_parse_rate_limit, hd, hsp]⟩
      · exact absurd (by rw [hsp]; rfl) h
      · exact ⟨"Invalid rate limit format. Use calls/period.",
          by simp [_parse_rate_limit, hd, hsp]⟩
    · exact ⟨"Invalid call limit. Must be an integer.",
        by simp [_parse_rate_limit, hd, hsp, hint]⟩
    · rcases hpi : pyInt p0 with _ | lim
      · exact ⟨"Invalid call limit. Must be an integer.",
          by simp [_parse_rate_limit, hd, hsp, hpi]⟩
      · exact ⟨"Invalid period. Use s, m, or h.",
          by simp [_parse_rate_limit, hd, hsp, hpi, hu1, hu2, hu3]⟩
  · intro t hrl hns
    rcases hb : t.baseKeyPfx with _ | ns
    · exact absurd hb hns
    · exact ⟨"Task rate_limit attribute cannot be None.",
        by simp [_initialize_rate_limit, hb, hrl]⟩

/-- Witness for C3: the separator-less string `"10"` and a task whose
rate-limit attribute is missing. -/
theorem C3_witness :
    (∃ msg, _parse_rate_limit "10" = .error (.valueError msg)) ∧
    (∃ msg, _initialize_rate_limit ⟨some "hubspot", "task", none⟩ =
        .error (.valueError msg)) :=
  ⟨C3_parser_rejects_malformed.1 "10" (Or.inr (Or.inl (by decide))),
    C3_parser_rejects_malformed.2 ⟨some "hubspot", "task", none⟩ rfl
      (by simp)⟩

/-- C4 counterexample: the claim says `"-3/s"` fails with a `ConfigError`,
but the parser accepts it and returns `(-3, 1)` — `int()` parses the sign
and no positivity check follows. -/
theorem C4_counterexample : _parse_rate_limit "-3/s" = .ok (-3, 1) := rfl

/-- C4 amended: the parser does not reject non-positive numerators; for
every positive integer N the string `"-N/s"` parses successfully to
`(-N, 1)`. -/
theorem C4_amended_negative_numerator_accepted (n : Nat) (hn : 0 < n) :
    _parse_rate_limit ("-" ++ decimalString n ++ "/s") =
      .ok (-(n : Int), 1) := by
  have hdata : ("-" ++ decimalString n ++ "/s").data =
      ('-' :: decChars n) ++ '/' :: ['s'] := by
    simp [decimalString, String.data_append]
  have hfree : ∀ c ∈ '-' :: decChars n, c ≠ '/' := by
    intro c hc
    rcases hc with _ | hc
    · decide
    · exact decChars_ne_slash n c (by assumption)
  have hsplit : pySplitOn '/' (('-' :: decChars n) ++ '/' :: ['s']) =
      ('-' :: decChars n) :: pySplitOn '/' ['s'] :=
    pySplitOn_sepfree_append '/' ('-' :: decChars n) ['s'] hfree
  have hsplit2 : pySplitOn '/' ['s'] = [['s']] := rfl
  unfold _parse_rate_limit
  rw [hdata]
  rw [if_neg (by simp), hsplit, hsplit2]
  simp only [pyInt_neg_decChars n hn]
  rfl

/-- Witness for C4's amended claim at N = 3. -/
theorem C4_witness :
    _parse_rate_limit ("-" ++ decimalString 3 ++ "/s") =
      .ok (-(3 : Int), 1) :=
  C4_amended_negative_numerator_accepted 3 (by decide)

/-! ## Claims about the task wrapper -/

/-- C8: once the rate limit is successfully initialised, an invocation with
no positional arguments raises the missing-client-id `ValueError` (the
spec's `CallerContractError`) with no store operation issued, the store
untouched, and no retry requested. -/
theorem C8_no_args_raises_before_store (t : TaskConfig) (s : Store)
    (v : String × Int × Int) (h : _initialize_rate_limit t = .ok v) :
    rateLimitedCall t [] s =
      ⟨.raised (.valueError
          "RateLimitedTask requires a client_id as the first argument."),
        s, []⟩ := by
  obtain ⟨ns, calls, period⟩ := v
  unfold rateLimitedCall
  rw [h]

/-- Witness for C8 on a concrete configured task. -/
theorem C8_witness :
    rateLimitedCall ⟨some "hubspot", "tasks.sync", some "10/s"⟩ [] [] =
      ⟨.raised (.valueError
          "RateLimitedTask requires a client_id as the first argument."),
        [], []⟩ :=
  C8_no_args_raises_before_store ⟨some "hubspot", "tasks.sync", some "10/s"⟩
    [] ("hubspot", 10, 1) rfl

/-- Reduction of `rateLimitedCall` on a non-empty argument list once the
rate limit is initialised. -/
theorem rateLimitedCall_cons (t : TaskConfig) (ns : String)
    (calls period : Int)
    (h : _initialize_rate_limit t = .ok (ns, calls, period))
    (clientId : PyValue) (rest : List PyValue) (s : Store) :
    rateLimitedCall t (clientId :: rest) s =
      (let bucketKey := ns ++ ":" ++ t.name ++ ":" ++ pyValueStr clientId
       let tokensBefore := redisGet s bucketKey
       let (tokensAfter, s1) := redisDecr s bucketKey
       let ops0 := [StoreOp.get bucketKey, StoreOp.decr bucketKey]
       match tokensBefore with
       | none =>
         ⟨.bodyCall (clientId :: rest),
           redisSetex s1 bucketKey period (calls - 1),
           ops0 ++ [.setex bucketKey period (calls - 1)]⟩
       | some _ =>
         if tokensAfter < 0 then
           ⟨.retry period, (redisIncr s1 bucketKey).2,
             ops0 ++ [.incr bucketKey]⟩
         else
           ⟨.bodyCall (clientId :: rest), s1, ops0⟩) := by
  unfold rateLimitedCall
  rw [h]

/-- C10: the caller-contract check only tests that some positional argument
exists: a present but falsy first argument (empty string, 0, None) raises
nothing, and its `str()` form is used as the client id in the bucket key
(visible as the key of the first store operation, the pipelined get). -/
theorem C10_falsy_first_arg_accepted (t : TaskConfig) (s : Store)
    (ns : String) (calls period : Int) (v : PyValue) (rest : List PyValue)
    (h : _initialize_rate_limit t = .ok (ns, calls, period))
    (hfalsy : pyTruthy v = false) :
    (rateLimitedCall t (v :: rest) s).ops.head? =
        some (.get (ns ++ ":" ++ t.name ++ ":" ++ pyValueStr v)) ∧
      ∀ e, (rateLimitedCall t (v :: rest) s).outcome ≠ .raised e := by
  rw [rateLimitedCall_cons t ns calls period h v rest s]
  rcases he : storeFind s (ns ++ ":" ++ t.name ++ ":" ++ pyValueStr v)
    with _ | ⟨ev, et⟩
  · constructor
    · simp [redisGet, redisDecr, he]
    · intro e
      simp [redisGet, redisDecr, he]
  · by_cases hlt : ev - 1 < 0
    · constructor
      · simp [redisGet, redisDecr, he, hlt]
      · intro e
        simp [redisGet, redisDecr, he, hlt]
    · constructor
      · simp [redisGet, redisDecr, he, hlt]
      · intro e
        simp [redisGet, redisDecr, he, hlt]

/-- Witness for C10: the empty string as client id on a configured task. -/
theorem C10_witness :
    (rateLimitedCall ⟨some "hubspot", "tasks.sync", some "3/s"⟩
          [PyValue.str ""] []).ops.head? =
        some (.get ("hubspot" ++ ":" ++
          (⟨some "hubspot", "tasks.sync", some "3/s"⟩ : TaskConfig).name ++
          ":" ++ pyValueStr (PyValue.str ""))) ∧
      ∀ e, (rateLimitedCall ⟨some "hubspot", "tasks.sync", some "3/s"⟩
          [PyValue.str ""] []).outcome ≠ .raised e :=
  C10_falsy_first_arg_accepted ⟨some "hubspot", "tasks.sync", some "3/s"⟩
    [] "hubspot" 3 1 (PyValue.str "") [] rfl rfl

end HubSpotCore
